import Mathlib

/-!
Verification of the FlowGen static validation and cross-reference engine.

The definitions below are shallow embeddings of the TypeScript sources:
  * `checkTypeCompatibility`, `mapCSharpTypeToFlowType`, `validateExpression`,
    `validateFunctionParams` from the NodeConfigPanel component;
  * `parseCodeFunctions` and the pure issue-collection part of `handleCompile`
    from the FlowEditor component.
JavaScript strings are modelled as Lean `String`/`List Char`; optional string
fields that JavaScript treats by truthiness are modelled as `String` with `""`
for absent; regular-expression matching is translated into equivalent
deterministic scanners (the patterns involved have no essential backtracking).
Wall-clock timestamps carried by diagnostics are omitted from the model.
-/

namespace FlowGen

/-- ASCII whitespace, the `\s` class as it occurs in the scanned texts. -/
def isSpace (c : Char) : Bool :=
  c == ' ' || c == '\t' || c == '\r' || c == '\n'

/-- The `[a-zA-Z0-9_]` character class used by the interpolation-token regexes. -/
def isTokenChar (c : Char) : Bool :=
  c.isAlphanum || c == '_'

/-- The `[\w<>\[\]]` character class used for return types in the method regex. -/
def isRetChar (c : Char) : Bool :=
  isTokenChar c || c == '<' || c == '>' || c == '[' || c == ']'

/-- Parse one interpolation token `\x7bident\x7d` (regex `\{[a-zA-Z0-9_]+\}`)
at the head of the character list; returns the identifier characters and the
remainder after the closing brace. -/
def parseTokenCs : List Char → Option (List Char × List Char)
  | c :: rest =>
    if c = '{' then
      let name := rest.takeWhile isTokenChar
      match rest.dropWhile isTokenChar with
      | '}' :: r => if name.isEmpty then none else some (name, r)
      | _ => none
    else none
  | [] => none

/-- `mapCSharpTypeToFlowType` from NodeConfigPanel: translate a C# parameter
type name into the flow variable type vocabulary. -/
def mapCSharpTypeToFlowType (csType : String) : String :=
  if csType = "int" || csType = "float" || csType = "double" || csType = "decimal"
      || csType = "long" || csType = "short" || csType = "byte" then "number"
  else if csType = "string" then "string"
  else if csType = "bool" then "boolean"
  else if csType = "DateTime" then "datetime"
  else if csType = "object" || csType = "dynamic" then "object"
  else "object"

/-- The numeric type family array from `checkTypeCompatibility`. -/
def numberTypes : List String := ["number", "integer", "float"]

/-- `checkTypeCompatibility` from NodeConfigPanel: the type lattice.
Identical types match; a numeric-family type matches `number` in either
direction; `object` on either side matches anything. -/
def checkTypeCompatibility (varType expectedType : String) : Bool :=
  if varType = expectedType then true
  else if expectedType = "number" && numberTypes.contains varType then true
  else if numberTypes.contains expectedType && varType = "number" then true
  else if expectedType = "object" || varType = "object" then true
  else false

/-- A flow variable as seen by the validators (only the name and declared
type are consulted). -/
structure Variable where
  name : String
  type : String
deriving DecidableEq

/-- One attempt of the assignment-confusion regex
`\{([a-zA-Z0-9_]+)\}\s*=(?!=)\s*(?:\{([a-zA-Z0-9_]+)\}|[^=])` at the head of
the list: a token, optional spaces, `=`, and a following character other than
`=` (the trailing alternation accepts any non-`=` character, so after the
negative lookahead it only requires that some character follows). -/
def tryAssignAt (cs : List Char) : Bool :=
  match parseTokenCs cs with
  | some (_, r1) =>
    match r1.dropWhile isSpace with
    | '=' :: d :: _ => d != '='
    | _ => false
  | none => false

/-- Unanchored search for the assignment-confusion pattern (every match of the
regex starts at a `\x7b`). -/
def assignTestFrom : List Char → Bool
  | [] => false
  | c :: rest => (c == '{' && tryAssignAt (c :: rest)) || assignTestFrom rest

/-- The global replacement `text.replace(/([^=])=([^=])/g, "$1==$2")` used to
build the suggested fix: a left-to-right, non-overlapping scan doubling every
`=` whose two neighbours are both distinct from `=`. -/
def replaceEq : List Char → List Char
  | a :: '=' :: b :: rest =>
    if a != '=' && b != '=' then a :: '=' :: '=' :: b :: replaceEq rest
    else a :: replaceEq ('=' :: b :: rest)
  | a :: rest => a :: replaceEq rest
  | [] => []

/-- The comparison-operator alternation `(==|!=|===|!==|>|<|>=|<=)` of the
binary-mismatch regex, in source order. -/
def binaryOps : List (List Char) :=
  [['=', '='], ['!', '='], ['=', '=', '='], ['!', '=', '='],
   ['>'], ['<'], ['>', '='], ['<', '=']]

/-- Try the operator alternatives in order at `r2`; on a prefix match the
continuation `\s*\{([a-zA-Z0-9_]+)\}` must also succeed, otherwise the next
alternative is tried (regex backtracking across the alternation). -/
def tryOps (r2 : List Char) : List (List Char) → Option (List Char × List Char)
  | [] => none
  | op :: ops =>
    if op.isPrefixOf r2 then
      let r3 := (r2.drop op.length).dropWhile isSpace
      match parseTokenCs r3 with
      | some (v2, r4) => some (v2, r4)
      | none => tryOps r2 ops
    else tryOps r2 ops

/-- One attempt of the binary-mismatch regex
`\{([a-zA-Z0-9_]+)\}\s*(==|!=|===|!==|>|<|>=|<=)\s*\{([a-zA-Z0-9_]+)\}` at the
head of the list: both variable names and the remainder after the match. -/
def tryBinaryAt (cs : List Char) : Option (String × String × List Char) :=
  match parseTokenCs cs with
  | some (v1, r1) =>
    match tryOps (r1.dropWhile isSpace) binaryOps with
    | some (v2, r4) => some (String.mk v1, String.mk v2, r4)
    | none => none
  | none => none

/-- The `exec` loop over the global binary-mismatch regex: successive
non-overlapping matches, left to right, each match resuming right after its
end (the regex `lastIndex`); the skip counter counts characters of the
current match still to be stepped over. -/
def binaryScanAux : Nat → List Char → List (String × String)
  | _, [] => []
  | Nat.succ skip, _ :: rest => binaryScanAux skip rest
  | 0, c :: rest =>
    if c = '{' then
      match tryBinaryAt (c :: rest) with
      | some (v1, v2, r) => (v1, v2) :: binaryScanAux (rest.length - r.length) rest
      | none => binaryScanAux 0 rest
    else binaryScanAux 0 rest

/-- All matches of the binary-mismatch regex over a text. -/
def binaryScan (cs : List Char) : List (String × String) :=
  binaryScanAux 0 cs

/-- The body of the `exec` loop: the first matched pair whose two names both
resolve to variables with incompatible types. -/
def firstBadPair (vars : List Variable) :
    List (String × String) → Option (Variable × String × Variable × String)
  | [] => none
  | (n1, n2) :: rest =>
    match vars.find? (fun v => v.name = n1), vars.find? (fun v => v.name = n2) with
    | some v1, some v2 =>
      if !checkTypeCompatibility v1.type v2.type then some (v1, n1, v2, n2)
      else firstBadPair vars rest
    | _, _ => firstBadPair vars rest

/-- The anchored single-token regex `^\s*\{([a-zA-Z0-9_]+)\}\s*$`. -/
def parseSingleToken (cs : List Char) : Option String :=
  match parseTokenCs (cs.dropWhile isSpace) with
  | some (n, r) => if r.dropWhile isSpace = [] then some (String.mk n) else none
  | none => none

/-- The live-validation result record of NodeConfigPanel
(`\x7b isValid, message?, suggestion?, targetVar? \x7d`). -/
structure ValidationResult where
  isValid : Bool
  message : String
  suggestion : Option String
  targetVar : Option String
deriving DecidableEq

/-- Message of the assignment-confusion diagnostic. -/
def assignMsg : String :=
  "检测到赋值操作 \x27=\x27。在判断条件中请使用 \x27==\x27 进行比较。"

/-- Message of the binary type-mismatch diagnostic. -/
def mismatchMsg (t1 n1 t2 n2 : String) : String :=
  "类型不匹配: 无法比较 " ++ t1 ++ " \x27\x7b" ++ n1 ++ "\x7d\x27 和 " ++
    t2 ++ " \x27\x7b" ++ n2 ++ "\x7d\x27。"

/-- Message of the boolean-context diagnostic. -/
def boolMsg (vName vType : String) : String :=
  "类型错误: 条件必须是布尔值。变量 \x27\x7b" ++ vName ++ "\x7d\x27 是 " ++
    vType ++ " 类型。"

/-- The type-directed coercion suggested by the boolean-context check. -/
def boolSuggestion (vName vType : String) : String :=
  if vType = "string" then "!string.IsNullOrEmpty(\x7b" ++ vName ++ "\x7d)"
  else if vType = "number" || vType = "integer" || vType = "float" then
    "\x7b" ++ vName ++ "\x7d != 0"
  else "\x7b" ++ vName ++ "\x7d != null"

/-- `validateExpression` from NodeConfigPanel: the expression validator for
decision/loop conditions.  Checks run in source order: assignment confusion,
then binary type mismatch over all comparison matches, then boolean-context
misuse of a lone token; `none` means no finding. -/
def validateExpression (vars : List Variable) (text : String) :
    Option ValidationResult :=
  if text = "" then none
  else if assignTestFrom text.data then
    some ⟨false, assignMsg, some (String.mk (replaceEq text.data)), none⟩
  else
    match firstBadPair vars (binaryScan text.data) with
    | some (v1, n1, v2, n2) =>
      some ⟨false, mismatchMsg v1.type n1 v2.type n2, none, none⟩
    | none =>
      match parseSingleToken text.data with
      | some vName =>
        match vars.find? (fun va => va.name = vName) with
        | some v =>
          if v.type ≠ "boolean" then
            some ⟨false, boolMsg vName v.type, some (boolSuggestion vName v.type),
              some vName⟩
          else none
        | none => none
      | none => none

/-- The variable list handed to NodeConfigPanel by FlowEditor:
`[...projectVariables, ...flows[activeFlowId].variables]` — the project-global
variables followed by the active flow's local variables. -/
def panelVariables (projectVariables localVariables : List Variable) : List Variable :=
  projectVariables ++ localVariables

/-- A declared parameter of a parsed callable. -/
structure FunctionParameter where
  name : String
  type : String
deriving DecidableEq

/-- A parsed callable signature (`FunctionDefinition` in the sources). -/
structure FunctionDefinition where
  name : String
  returnType : String
  parameters : List FunctionParameter
  description : String
deriving DecidableEq

/-- The anchored exact-token regex `^\{([a-zA-Z0-9_]+)\}$` used on call-site
argument texts. -/
def parseExactToken (s : String) : Option String :=
  match parseTokenCs s.data with
  | some (n, []) => some (String.mk n)
  | _ => none

/-- Message of the call-site parameter-mismatch diagnostic. -/
def paramMsg (paramName expected csType varName varType : String) : String :=
  "参数 \x27" ++ paramName ++ "\x27 类型错误: 需要 " ++ expected ++ " (C# " ++
    csType ++ "), 但变量 \x27\x7b" ++ varName ++ "\x7d\x27 是 " ++ varType ++ "。"

/-- `validateFunctionParams` from NodeConfigPanel: walk the selected
callable's parameters in declaration order; for the first parameter whose
non-empty bound argument is exactly one interpolation token resolving to a
variable incompatible with the translated parameter type, return its message;
otherwise `none`. -/
def funcParamsLoop (parameterValues : List (String × String))
    (vars : List Variable) : List FunctionParameter → Option String
  | [] => none
  | param :: rest =>
    let val := ((parameterValues.lookup param.name).getD "")
    if val = "" then funcParamsLoop parameterValues vars rest
    else
      match parseExactToken val with
      | some varName =>
        match vars.find? (fun v => v.name = varName) with
        | some varbl =>
          let expectedFlowType := mapCSharpTypeToFlowType param.type
          if !checkTypeCompatibility varbl.type expectedFlowType then
            some (paramMsg param.name expectedFlowType param.type varbl.name
              varbl.type)
          else funcParamsLoop parameterValues vars rest
        | none => funcParamsLoop parameterValues vars rest
      | none => funcParamsLoop parameterValues vars rest

def validateFunctionParams (selectedFunction : FunctionDefinition)
    (parameterValues : List (String × String)) (vars : List Variable) :
    Option String :=
  funcParamsLoop parameterValues vars selectedFunction.parameters

/-- Spec-side predicate: does this parameter "offend" in the sense of the
call-site validator — non-empty argument text that is exactly one
interpolation token resolving to a variable whose type is incompatible with
the parameter's translated type? -/
def paramOffends (parameterValues : List (String × String)) (vars : List Variable)
    (param : FunctionParameter) : Bool :=
  let val := ((parameterValues.lookup param.name).getD "")
  if val = "" then false
  else
    match parseExactToken val with
    | some varName =>
      match vars.find? (fun v => v.name = varName) with
      | some varbl =>
        !checkTypeCompatibility varbl.type (mapCSharpTypeToFlowType param.type)
      | none => false
    | none => false

/-- Spec-side message for an offending parameter (recomputed from the same
data the validator uses). -/
def offendMsg (parameterValues : List (String × String)) (vars : List Variable)
    (param : FunctionParameter) : String :=
  match parseExactToken ((parameterValues.lookup param.name).getD "") with
  | some varName =>
    match vars.find? (fun v => v.name = varName) with
    | some varbl =>
      paramMsg param.name (mapCSharpTypeToFlowType param.type) param.type
        varbl.name varbl.type
    | none => ""
  | none => ""

/-- Node kinds (the `NodeType` enum; only the kinds the compile pass
distinguishes matter to the validator, the others are carried for
completeness). -/
inductive NodeType where
  | start | process | decision | aiTask | endNode | delay | code | log
  | group | http | db | loop | subflow | functionCall
deriving DecidableEq

/-- The node data fields consulted by the compile pass.  JavaScript tests
these by truthiness, so `""` models both `undefined` and the empty string. -/
structure NodeData where
  subFlowId : String
  code : String
  codeFileId : String
  functionName : String
  error : String
deriving DecidableEq

/-- A flow node (`AppNode`): id, kind, and the data fields above. -/
structure AppNode where
  id : String
  type : NodeType
  data : NodeData
deriving DecidableEq

/-- One flow of the project (`FlowData`). -/
structure FlowData where
  id : String
  name : String
  nodes : List AppNode
  localVariables : List Variable
deriving DecidableEq

/-- A code file as consulted by the compile pass. -/
structure CodeFile where
  id : String
  name : String
  content : String
deriving DecidableEq

/-- Diagnostic severity (`type` field of `ValidationIssue`). -/
inductive IssueType where
  | error | warning
deriving DecidableEq

/-- A compile diagnostic (`ValidationIssue`); the wall-clock `timestamp`
field is omitted from the model. -/
structure ValidationIssue where
  id : String
  flowId : String
  nodeId : String
  type : IssueType
  message : String
deriving DecidableEq

/-- The diagnostics contributed by one node of one flow in `handleCompile`:
unselected sub-flow target, empty scripted-code body, unconfigured function
call, and any stored live-validation error, in source order. -/
def nodeIssues (flow : FlowData) (node : AppNode) : List ValidationIssue :=
  (if node.type = NodeType.subflow && node.data.subFlowId = "" then
    [⟨"err-" ++ node.id, flow.id, node.id, IssueType.error,
      "Sub-flow target not selected."⟩] else []) ++
  (if node.type = NodeType.code && node.data.code = "" then
    [⟨"err-" ++ node.id, flow.id, node.id, IssueType.error,
      "Code block is empty."⟩] else []) ++
  (if node.type = NodeType.functionCall &&
      (node.data.codeFileId = "" || node.data.functionName = "") then
    [⟨"err-" ++ node.id, flow.id, node.id, IssueType.error,
      "Function call not configured."⟩] else []) ++
  (if node.data.error ≠ "" then
    [⟨"err-" ++ node.id, flow.id, node.id, IssueType.error, node.data.error⟩]
   else [])

/-- The node-phase diagnostics of `handleCompile`: every node of every flow,
in iteration order. -/
def compileNodeIssues (flows : List FlowData) : List ValidationIssue :=
  flows.flatMap fun flow => flow.nodes.flatMap (nodeIssues flow)

/-- Unanchored test of `/namespace\s+[\w.]+/` against source text. -/
def nsTestFrom : List Char → Bool
  | [] => false
  | c :: rest => tryNsAt (c :: rest) || nsTestFrom rest
where
  tryNsAt (cs : List Char) : Bool :=
    if ("namespace".data).isPrefixOf cs then
      let r := cs.drop 9
      match r.dropWhile isSpace with
      | d :: _ => (r.takeWhile isSpace ≠ []) && (isTokenChar d || d == '.')
      | [] => false
    else false

/-- Unanchored test of `/public\s+class\s+\w+/` against source text. -/
def classTestFrom : List Char → Bool
  | [] => false
  | c :: rest => tryClassAt (c :: rest) || classTestFrom rest
where
  tryClassAt (cs : List Char) : Bool :=
    if ("public".data).isPrefixOf cs then
      let r := cs.drop 6
      let sp1 := r.takeWhile isSpace
      let r1 := r.dropWhile isSpace
      if sp1 ≠ [] && ("class".data).isPrefixOf r1 then
        let r2 := r1.drop 5
        match r2.dropWhile isSpace with
        | d :: _ => (r2.takeWhile isSpace ≠ []) && isTokenChar d
        | [] => false
      else false
    else false

/-- Message of the code-file structural diagnostic. -/
def fileMsg (fileName : String) : String :=
  "File \x27" ++ fileName ++ "\x27 missing namespace or class definition."

/-- The structural-completeness diagnostics contributed by one code file in
`handleCompile`: one error-severity issue when the source text lacks a
namespace declaration or a public class declaration. -/
def codeFileIssues (f : CodeFile) : List ValidationIssue :=
  if !nsTestFrom f.content.data || !classTestFrom f.content.data then
    [⟨"code-struct-" ++ f.id, "code-files", f.id, IssueType.error, fileMsg f.name⟩]
  else []

/-- The pure diagnostic-collection core of `handleCompile`: node issues over
every flow, then structural issues over every code file, as one flat list. -/
def handleCompile (flows : List FlowData) (codeFiles : List CodeFile) :
    List ValidationIssue :=
  compileNodeIssues flows ++ codeFiles.flatMap codeFileIssues

/-- The global replacement `/<[^>]*>/g → ""` stripping markup tags from a
doc-comment line: from each `<`, everything through the next `>` is removed;
a `<` with no later `>` is kept. -/
def removeTags (cs : List Char) : List Char :=
  match cs with
  | [] => []
  | c :: rest =>
    if c = '<' then
      match hd : rest.dropWhile (fun x => x ≠ '>') with
      | [] => '<' :: removeTags rest
      | _ :: tl => removeTags tl
    else c :: removeTags rest
termination_by cs.length
decreasing_by
  · simp
  · have hle : (rest.dropWhile (fun x => x ≠ '>')).length ≤ rest.length :=
      (List.dropWhile_sublist (l := rest) (fun x => x ≠ '>')).length_le
    rw [hd] at hle
    simp only [List.length_cons] at hle ⊢
    omega
  · simp

/-- Strip a comment line: `replace(/^\/{2,3}\s*/, "")`, then tag removal,
then trim — exactly the processing applied to collected comments. -/
def stripComment (line : String) : String :=
  let afterSlashes :=
    if line.startsWith "///" then line.data.drop 3
    else if line.startsWith "//" then line.data.drop 2
    else line.data
  (String.mk (removeTags (afterSlashes.dropWhile isSpace))).trim

/-- Parameter-list parsing: split on commas, trim, drop empties; each
parameter's type is the second-to-last whitespace-delimited token (or
`object` when there is only one token) and its name the last token. -/
def parseParams (ps : String) : List FunctionParameter :=
  (((ps.splitOn ",").map String.trim).filter (fun p => p ≠ "")).map fun p =>
    let parts := (p.split isSpace).filter (fun t => t ≠ "")
    { name := parts.getD (parts.length - 1) "",
      type := if parts.length > 1 then parts.getD (parts.length - 2) "" else "object" }

/-- The tail of the public-method regex after `public\s+(?:static\s+)?`:
`([\w<>\[\]]+)\s+(\w+)\s*\(([^)]*)\)`, returning
`(returnType, name, params)`.  Each character class is disjoint from the
delimiter that follows it, so greedy maximal munch is exact. -/
def matchRestPM (cs : List Char) : Option (String × String × String) :=
  let rt := cs.takeWhile isRetChar
  let r1 := cs.dropWhile isRetChar
  if rt = [] then none
  else if r1.takeWhile isSpace = [] then none
  else
    let r2 := r1.dropWhile isSpace
    let nm := r2.takeWhile isTokenChar
    let r3 := r2.dropWhile isTokenChar
    if nm = [] then none
    else
      match r3.dropWhile isSpace with
      | '(' :: r5 =>
        match r5.dropWhile (fun x => x ≠ ')') with
        | ')' :: _ =>
          some (String.mk rt, String.mk nm, String.mk (r5.takeWhile (fun x => x ≠ ')')))
        | _ => none
      | _ => none

/-- The public-method declaration regex
`^public\s+(?:static\s+)?([\w<>\[\]]+)\s+(\w+)\s*\(([^)]*)\)` on a trimmed
line; the optional `static\s+` group backtracks to not taken when the rest
fails with it taken. -/
def matchPublicMethod (line : String) : Option (String × String × String) :=
  let cs := line.data
  if ("public".data).isPrefixOf cs then
    let r0 := cs.drop 6
    if r0.takeWhile isSpace = [] then none
    else
      let r1 := r0.dropWhile isSpace
      let attempt :=
        if ("static".data).isPrefixOf r1 then
          let rs := r1.drop 6
          if rs.takeWhile isSpace = [] then none
          else matchRestPM (rs.dropWhile isSpace)
        else none
      match attempt with
      | some res => some res
      | none => matchRestPM r1
  else none

/-- A line is "neutral" for the pending-documentation state: import,
namespace, class, or brace lines do not clear collected comments. -/
def isNeutralLine (line : String) : Bool :=
  line.startsWith "using" || line.startsWith "namespace" ||
    line.startsWith "class" || line.startsWith "\x7b" || line.startsWith "\x7d"

/-- The forward scan of `parseCodeFunctions`, carrying the accumulated
pending doc-comment lines (`currentComments`). -/
def parseLoop : List String → List String → List FunctionDefinition
  | [], _ => []
  | l :: rest, pending =>
    let line := l.trim
    if line.startsWith "///" || line.startsWith "//" then
      let c := stripComment line
      parseLoop rest (if c ≠ "" then pending ++ [c] else pending)
    else if line.startsWith "[" || line = "" then
      parseLoop rest pending
    else
      match matchPublicMethod line with
      | some (rt, nm, ps) =>
        ⟨nm, rt, parseParams ps, String.intercalate " " pending⟩ :: parseLoop rest []
      | none =>
        if isNeutralLine line then parseLoop rest pending
        else parseLoop rest []

/-- `parseCodeFunctions` from FlowEditor: the signature parser, a single
forward scan over the lines of one file's source text. -/
def parseCodeFunctions (code : String) : List FunctionDefinition :=
  parseLoop (code.splitOn "\n") []

/-- Spec-side classification of one source line, following the specified
scanner discipline: a doc-comment line (with its stripped text), a line that
is skipped without clearing pending documentation (blank, attribute, import,
namespace, class, brace, or a comment that strips to nothing), an ordinary
code line that clears pending documentation, or a public-method declaration. -/
inductive LineKind where
  | doc (txt : String)
  | keep
  | clear
  | method (returnType name : String) (params : List FunctionParameter)
deriving DecidableEq

/-- Classify one raw line. -/
def classifyLine (l : String) : LineKind :=
  let line := l.trim
  if line.startsWith "///" || line.startsWith "//" then
    let c := stripComment line
    if c ≠ "" then LineKind.doc c else LineKind.keep
  else if line.startsWith "[" || line = "" then LineKind.keep
  else
    match matchPublicMethod line with
    | some (rt, nm, ps) => LineKind.method rt nm (parseParams ps)
    | none => if isNeutralLine line then LineKind.keep else LineKind.clear

/-- The immediately preceding doc-comment block of a position, computed by a
backward scan over the (reversed) preceding lines: collect doc lines, skip
non-clearing lines, stop at an ordinary code line or an earlier method
declaration.  The result is in source order. -/
def docsBackward : List LineKind → List String
  | [] => []
  | LineKind.doc t :: rev => docsBackward rev ++ [t]
  | LineKind.keep :: rev => docsBackward rev
  | LineKind.clear :: _ => []
  | LineKind.method _ _ _ :: _ => []

/-- Spec-side parse: emit one Callable per method-declaration line, in source
order, whose description joins the immediately preceding doc-comment block
(as computed by the backward scan over the already processed prefix). -/
def specParseAux : List LineKind → List LineKind → List FunctionDefinition
  | _, [] => []
  | processed, k :: rest =>
    match k with
    | LineKind.method rt nm ps =>
      ⟨nm, rt, ps, String.intercalate " " (docsBackward processed.reverse)⟩ ::
        specParseAux (processed ++ [k]) rest
    | _ => specParseAux (processed ++ [k]) rest

/-- Spec-side parse of a whole line list. -/
def specParse (lines : List String) : List FunctionDefinition :=
  specParseAux [] (lines.map classifyLine)

/-- Is a classified line a public-method declaration? -/
def isMethodKind : LineKind → Bool
  | LineKind.method _ _ _ => true
  | _ => false

/-! ## Supporting lemmas -/

theorem mem_nodeIssues {fl : FlowData} {nd : AppNode} {issue : ValidationIssue}
    (h : issue ∈ nodeIssues fl nd) :
    issue.flowId = fl.id ∧ issue.nodeId = nd.id ∧ issue.id = "err-" ++ nd.id ∧
      issue.type = IssueType.error := by
  unfold nodeIssues at h
  rw [List.mem_append, List.mem_append, List.mem_append] at h
  rcases h with ((h | h) | h) | h <;>
    · split at h <;> simp only [List.mem_singleton, List.not_mem_nil] at h
      subst h
      exact ⟨rfl, rfl, rfl, rfl⟩

theorem mem_compileNodeIssues {flows : List FlowData} {issue : ValidationIssue}
    (h : issue ∈ compileNodeIssues flows) :
    ∃ fl ∈ flows, ∃ nd ∈ fl.nodes, issue.flowId = fl.id ∧ issue.nodeId = nd.id ∧
      issue.id = "err-" ++ nd.id := by
  unfold compileNodeIssues at h
  rw [List.mem_flatMap] at h
  obtain ⟨fl, hfl, h⟩ := h
  rw [List.mem_flatMap] at h
  obtain ⟨nd, hnd, h⟩ := h
  obtain ⟨h1, h2, h3, _⟩ := mem_nodeIssues h
  exact ⟨fl, hfl, nd, hnd, h1, h2, h3⟩

/-! ## The claims -/

/-- C1: the claim says name resolution consults the current flow's local
Variables before the global ones, local shadowing global.  The code builds
the panel's variable list as globals-then-locals and resolves with `find?`,
which takes the first match, so the GLOBAL variable's declared type wins: on
a project with global `x : string` and local `x : number`, the boolean-context
check classifies `\x7bx\x7d` as a string (suggesting a non-empty-string test)
instead of a number (which would suggest `\x7bx\x7d != 0`). -/
theorem c1_global_shadows_local :
    validateExpression (panelVariables [⟨"x", "string"⟩] [⟨"x", "number"⟩]) "{x}" =
      some ⟨false, boolMsg "x" "string", some "!string.IsNullOrEmpty(\x7bx\x7d)",
        some "x"⟩ ∧
    (panelVariables [⟨"x", "string"⟩] [⟨"x", "number"⟩]).find?
        (fun v => v.name = "x") = some ⟨"x", "string"⟩ := by
  constructor <;> decide

/-- C2 (counterexample): the claim says every ordered pair from the numeric
family is compatible, including `integer` with `float`; the code rejects
that pair, because only pairs with `number` on one side are accepted inside
the family. -/
theorem c2_integer_float_incompatible :
    checkTypeCompatibility "integer" "float" = false := by decide

/-- C2 (amended): the type-compatibility function returns true exactly when
the two names are identical, or one side is `number` and the other is in the
numeric family \x7bnumber, integer, float\x7d, or either side is `object`;
in particular `compatible(t, t)` holds for every `t`, and pairs such as
`integer`/`float` or `string`/`boolean` are incompatible. -/
theorem c2_compat_characterization (a b : String) :
    checkTypeCompatibility a b = true ↔
      (a = b ∨ (b = "number" ∧ (a = "number" ∨ a = "integer" ∨ a = "float")) ∨
        ((b = "number" ∨ b = "integer" ∨ b = "float") ∧ a = "number") ∨
        b = "object" ∨ a = "object") := by
  simp only [checkTypeCompatibility, numberTypes]
  split_ifs with h1 h2 h3 h4 <;>
    simp_all [List.contains, List.mem_cons]

/-- C3 (counterexample): with two parameters both bound to single
interpolation tokens of incompatible type, the call-site validator returns a
single message — about the first parameter only — not one diagnostic per
offending parameter as the claim states. -/
theorem c3_single_message_counterexample :
    paramOffends [("p1", "{s}"), ("p2", "{n}")]
        [⟨"s", "string"⟩, ⟨"n", "number"⟩] ⟨"p1", "int"⟩ = true ∧
    paramOffends [("p1", "{s}"), ("p2", "{n}")]
        [⟨"s", "string"⟩, ⟨"n", "number"⟩] ⟨"p2", "string"⟩ = true ∧
    validateFunctionParams ⟨"F", "void", [⟨"p1", "int"⟩, ⟨"p2", "string"⟩], ""⟩
        [("p1", "{s}"), ("p2", "{n}")] [⟨"s", "string"⟩, ⟨"n", "number"⟩] =
      some (paramMsg "p1" "number" "int" "s" "string") :=
  ⟨by decide, by decide, by decide⟩

/-- C3 (amended): the call-site validator reports at most one diagnostic:
for the first parameter in declaration order whose bound argument text is
exactly one interpolation token whose resolved variable type is incompatible
with the parameter's translated type, it returns that parameter's message
(naming the parameter, the expected type and the actual type); subsequent
offending parameters are not reported. -/
theorem c3_first_offender_only (f : FunctionDefinition)
    (pvs : List (String × String)) (vars : List Variable) :
    validateFunctionParams f pvs vars =
      (f.parameters.find? (paramOffends pvs vars)).map (offendMsg pvs vars) := by
  unfold validateFunctionParams
  induction f.parameters with
  | nil => simp [funcParamsLoop, List.find?]
  | cons p ps ih =>
    simp only [funcParamsLoop]
    by_cases hval : ((pvs.lookup p.name).getD "") = ""
    · have hoff : paramOffends pvs vars p = false := by
        simp [paramOffends, hval]
      rw [if_pos hval, List.find?_cons_of_neg _ (by simp [hoff]), ih]
    · rw [if_neg hval]
      cases htok : parseExactToken ((pvs.lookup p.name).getD "") with
      | none =>
        have hoff : paramOffends pvs vars p = false := by
          simp [paramOffends, hval, htok]
        rw [List.find?_cons_of_neg _ (by simp [hoff])]
        simpa [htok] using ih
      | some vn =>
        cases hfind : vars.find? (fun v => v.name = vn) with
        | none =>
          have hoff : paramOffends pvs vars p = false := by
            simp [paramOffends, hval, htok, hfind]
          rw [List.find?_cons_of_neg _ (by simp [hoff])]
          simpa [htok, hfind] using ih
        | some vb =>
          by_cases hcomp :
              checkTypeCompatibility vb.type (mapCSharpTypeToFlowType p.type) = true
          · have hoff : paramOffends pvs vars p = false := by
              simp [paramOffends, hval, htok, hfind, hcomp]
            rw [List.find?_cons_of_neg _ (by simp [hoff])]
            simpa [htok, hfind, hcomp] using ih
          · have hoff : paramOffends pvs vars p = true := by
              simp [paramOffends, hval, htok, hfind]
              simpa using hcomp
            rw [List.find?_cons_of_pos _ hoff]
            simp only [htok, hfind, Option.map_some]
            rw [if_pos (by simpa using hcomp)]
            simp [offendMsg, htok, hfind]

/-- C4 (counterexample): the structural-completeness diagnostic for a code
file missing both a namespace and a public class declaration is emitted with
severity `error`, not the warning-class severity the claim states. -/
theorem c4_error_severity_counterexample :
    handleCompile [] [⟨"f1", "A.cs", ""⟩] =
      [⟨"code-struct-f1", "code-files", "f1", IssueType.error, fileMsg "A.cs"⟩] ∧
    IssueType.error ≠ IssueType.warning :=
  ⟨by decide, by decide⟩

/-- C4 (amended): during the compile pass, every code file whose source text
lacks a namespace-like declaration or a public-type declaration contributes
exactly one structural-completeness diagnostic, and its severity is
error-class. -/
theorem c4_one_structural_error_per_bad_file (flows : List FlowData)
    (files : List CodeFile) (f : CodeFile) (hf : f ∈ files)
    (hbad : nsTestFrom f.content.data = false ∨ classTestFrom f.content.data = false) :
    codeFileIssues f =
      [⟨"code-struct-" ++ f.id, "code-files", f.id, IssueType.error, fileMsg f.name⟩] ∧
    (⟨"code-struct-" ++ f.id, "code-files", f.id, IssueType.error, fileMsg f.name⟩ :
        ValidationIssue) ∈ handleCompile flows files := by
  have h1 : codeFileIssues f =
      [⟨"code-struct-" ++ f.id, "code-files", f.id, IssueType.error, fileMsg f.name⟩] := by
    unfold codeFileIssues
    rcases hbad with hb | hb <;> simp [hb]
  refine ⟨h1, ?_⟩
  unfold handleCompile
  rw [List.mem_append]
  right
  rw [List.mem_flatMap]
  exact ⟨f, hf, by rw [h1]; exact List.mem_singleton_self _⟩

/-- C4 (witness): the amended theorem applied to an empty source file. -/
theorem c4_witness :
    codeFileIssues ⟨"f1", "A.cs", ""⟩ =
      [⟨"code-struct-f1", "code-files", "f1", IssueType.error, fileMsg "A.cs"⟩] ∧
    (⟨"code-struct-f1", "code-files", "f1", IssueType.error, fileMsg "A.cs"⟩ :
        ValidationIssue) ∈ handleCompile [] [⟨"f1", "A.cs", ""⟩] := by
  have h := c4_one_structural_error_per_bad_file [] [⟨"f1", "A.cs", ""⟩]
    ⟨"f1", "A.cs", ""⟩ (by decide) (Or.inl (by decide))
  simpa using h

/-- C5 (counterexample): the claim says the suggested replacement rewrites
every lone `=` while leaving `>=`, `<=`, `==`, `!=` unchanged; the code's
global replacement also doubles the `=` of `>=` (its neighbours are `>` and
a space), so the suggestion corrupts `>=` into `>==`. -/
theorem c5_ge_corruption_counterexample :
    validateExpression [⟨"x", "number"⟩, ⟨"y", "number"⟩] "{x} = 1 && {y} >= 2" =
      some ⟨false, assignMsg, some "{x} == 1 && {y} >== 2", none⟩ ∧
    ("{x} == 1 && {y} >== 2" : String) ≠ "{x} == 1 && {y} >= 2" :=
  ⟨by decide, by decide⟩

/-- C5 (amended): whenever the assignment-confusion pattern matches the
condition text, the validator returns an assignment-confusion diagnostic
whose suggested replacement applies the global rewrite doubling every `=`
whose two neighbour characters are both distinct from `=` — this turns every
lone `=` into `==` (in particular `\x7bx\x7d = 5` becomes `\x7bx\x7d == 5`)
but also rewrites `>=`, `<=`, `!=` into `>==`, `<==`, `!==`; only `==` is
left unchanged. -/
theorem c5_assignment_suggestion (vars : List Variable) (text : String)
    (h : assignTestFrom text.data = true) :
    validateExpression vars text =
      some ⟨false, assignMsg, some (String.mk (replaceEq text.data)), none⟩ := by
  have hne : text ≠ "" := by
    intro he
    subst he
    exact absurd h (by decide)
  unfold validateExpression
  rw [if_neg hne, if_pos h]

/-- C5 (witness): the amended theorem applied to the spec's worked example
`\x7bx\x7d = 5`, whose suggestion is `\x7bx\x7d == 5`. -/
theorem c5_witness :
    validateExpression [⟨"x", "number"⟩] "{x} = 5" =
      some ⟨false, assignMsg, some "{x} == 5", none⟩ := by
  have h := c5_assignment_suggestion [⟨"x", "number"⟩] "{x} = 5" (by decide)
  rw [h]
  decide

/-- C7: a project with two flows — Flow A holding one sub-flow node with no
target selected, Flow B holding one empty scripted-code node and one fully
configured function-call node, no node carrying a stored live-validation
error, and no code files — compiles to exactly two diagnostics, one per
malformed node, each with that node's flowId and nodeId; compile accumulates
across flows and does not stop at the first error. -/
theorem c7_two_flow_compile (idA nmA idB nmB nA nB1 nB2 : String)
    (varsA varsB : List Variable) (dA dB1 dB2 : NodeData)
    (hA1 : dA.subFlowId = "") (hA2 : dA.error = "")
    (hB1a : dB1.code = "") (hB1b : dB1.error = "")
    (hB2a : dB2.codeFileId ≠ "") (hB2b : dB2.functionName ≠ "")
    (hB2c : dB2.error = "") :
    handleCompile
      [⟨idA, nmA, [⟨nA, NodeType.subflow, dA⟩], varsA⟩,
       ⟨idB, nmB, [⟨nB1, NodeType.code, dB1⟩, ⟨nB2, NodeType.functionCall, dB2⟩],
         varsB⟩] [] =
    [⟨"err-" ++ nA, idA, nA, IssueType.error, "Sub-flow target not selected."⟩,
     ⟨"err-" ++ nB1, idB, nB1, IssueType.error, "Code block is empty."⟩] := by
  simp [handleCompile, compileNodeIssues, nodeIssues, hA1, hA2, hB1a, hB1b,
    hB2a, hB2b, hB2c]

/-- C7 (witness): the theorem applied to a concrete two-flow project. -/
theorem c7_witness :
    handleCompile
      [⟨"flowA", "Flow A", [⟨"a1", NodeType.subflow, ⟨"", "", "", "", ""⟩⟩], []⟩,
       ⟨"flowB", "Flow B",
         [⟨"b1", NodeType.code, ⟨"", "", "", "", ""⟩⟩,
          ⟨"b2", NodeType.functionCall, ⟨"", "", "cf1", "DoWork", ""⟩⟩], []⟩] [] =
    [⟨"err-a1", "flowA", "a1", IssueType.error, "Sub-flow target not selected."⟩,
     ⟨"err-b1", "flowB", "b1", IssueType.error, "Code block is empty."⟩] := by
  have h := c7_two_flow_compile "flowA" "Flow A" "flowB" "Flow B" "a1" "b1" "b2"
    [] [] ⟨"", "", "", "", ""⟩ ⟨"", "", "", "", ""⟩ ⟨"", "", "cf1", "DoWork", ""⟩
    rfl rfl rfl rfl (by decide) (by decide) rfl
  rw [h]
  decide

/-- C8 (counterexample): the code-file structural diagnostic carries the
sentinel flowId `code-files`, which is not the id of any flow of the
project, contradicting the claim that every compile diagnostic's flowId
equals the id of some Flow in the project's flow map. -/
theorem c8_sentinel_flowid_counterexample :
    handleCompile [⟨"main", "Main", [], []⟩] [⟨"f1", "Util.cs", ""⟩] =
      [⟨"code-struct-f1", "code-files", "f1", IssueType.error, fileMsg "Util.cs"⟩] ∧
    ([⟨"main", "Main", [], []⟩] : List FlowData).all
      (fun fl => fl.id != "code-files") = true :=
  ⟨by decide, by decide⟩

/-- C8 (amended): every node-level diagnostic of the compile pass names a
flow of the project and a node of that flow; the code-file structural
diagnostics instead carry the sentinel flowId `code-files` and reuse the
nodeId field for the id of a code file of the project. -/
theorem c8_diagnostic_location (flows : List FlowData) (files : List CodeFile)
    (issue : ValidationIssue) (h : issue ∈ handleCompile flows files) :
    (∃ fl ∈ flows, issue.flowId = fl.id ∧ ∃ nd ∈ fl.nodes, issue.nodeId = nd.id) ∨
    (issue.flowId = "code-files" ∧ ∃ f ∈ files, issue.nodeId = f.id) := by
  unfold handleCompile at h
  rw [List.mem_append] at h
  rcases h with h | h
  · obtain ⟨fl, hfl, nd, hnd, h1, h2, _⟩ := mem_compileNodeIssues h
    exact Or.inl ⟨fl, hfl, h1, nd, hnd, h2⟩
  · rw [List.mem_flatMap] at h
    obtain ⟨f, hf, h⟩ := h
    unfold codeFileIssues at h
    split at h
    · simp only [List.mem_singleton] at h
      subst h
      exact Or.inr ⟨rfl, f, hf, rfl⟩
    · simp at h

/-- C8 (witness): the amended theorem applied to a concrete project and the
structural diagnostic it produces. -/
theorem c8_witness :
    (∃ fl ∈ ([⟨"main", "Main", [], []⟩] : List FlowData),
      (⟨"code-struct-f1", "code-files", "f1", IssueType.error, fileMsg "Util.cs"⟩ :
        ValidationIssue).flowId = fl.id ∧
      ∃ nd ∈ fl.nodes,
        (⟨"code-struct-f1", "code-files", "f1", IssueType.error, fileMsg "Util.cs"⟩ :
          ValidationIssue).nodeId = nd.id) ∨
    ((⟨"code-struct-f1", "code-files", "f1", IssueType.error, fileMsg "Util.cs"⟩ :
        ValidationIssue).flowId = "code-files" ∧
      ∃ f ∈ ([⟨"f1", "Util.cs", ""⟩] : List CodeFile),
        (⟨"code-struct-f1", "code-files", "f1", IssueType.error, fileMsg "Util.cs"⟩ :
          ValidationIssue).nodeId = f.id) :=
  c8_diagnostic_location [⟨"main", "Main", [], []⟩] [⟨"f1", "Util.cs", ""⟩]
    ⟨"code-struct-f1", "code-files", "f1", IssueType.error, fileMsg "Util.cs"⟩
    (by decide)

/-- C10: every node-level diagnostic of the compile pass has id equal to
`err-` concatenated with the node's id; consequently a node violating two
checks at once — here an unconfigured function-call node that also carries a
stored live-validation error — yields two diagnostics with the same id, so
ids are not unique within one compile result. -/
theorem c10_node_issue_ids :
    (∀ (flows : List FlowData) (issue : ValidationIssue),
        issue ∈ compileNodeIssues flows →
        ∃ fl ∈ flows, ∃ nd ∈ fl.nodes,
          issue.nodeId = nd.id ∧ issue.id = "err-" ++ nd.id) ∧
    handleCompile [⟨"main", "Main",
        [⟨"n1", NodeType.functionCall, ⟨"", "", "", "", "boom"⟩⟩], []⟩] [] =
      [⟨"err-n1", "main", "n1", IssueType.error, "Function call not configured."⟩,
       ⟨"err-n1", "main", "n1", IssueType.error, "boom"⟩] ∧
    ¬ ((handleCompile [⟨"main", "Main",
        [⟨"n1", NodeType.functionCall, ⟨"", "", "", "", "boom"⟩⟩], []⟩] []).map
          ValidationIssue.id).Nodup := by
  refine ⟨?_, by decide, by decide⟩
  intro flows issue h
  obtain ⟨fl, hfl, nd, hnd, _, h2, h3⟩ := mem_compileNodeIssues h
  exact ⟨fl, hfl, nd, hnd, h2, h3⟩

/-- C10 (witness): the id law applied to a concrete diagnostic of a concrete
compile. -/
theorem c10_witness :
    ∃ fl ∈ ([⟨"main", "Main",
        [⟨"n1", NodeType.functionCall, ⟨"", "", "", "", "boom"⟩⟩], []⟩] :
          List FlowData),
      ∃ nd ∈ fl.nodes,
        (⟨"err-n1", "main", "n1", IssueType.error, "boom"⟩ :
          ValidationIssue).nodeId = nd.id ∧
        (⟨"err-n1", "main", "n1", IssueType.error, "boom"⟩ :
          ValidationIssue).id = "err-" ++ nd.id :=
  c10_node_issue_ids.1
    [⟨"main", "Main", [⟨"n1", NodeType.functionCall, ⟨"", "", "", "", "boom"⟩⟩], []⟩]
    ⟨"err-n1", "main", "n1", IssueType.error, "boom"⟩ (by decide)

theorem ne_lbrace_of_isSpace {c : Char} (h : isSpace c = true) : c ≠ '{' := by
  intro he
  subst he
  exact absurd h (by decide)

theorem ne_lbrace_of_isTokenChar {c : Char} (h : isTokenChar c = true) : c ≠ '{' := by
  intro he
  subst he
  exact absurd h (by decide)

theorem assignTestFrom_eq_false {l : List Char} (hl : ∀ c ∈ l, c ≠ '{') :
    assignTestFrom l = false := by
  induction l with
  | nil => rfl
  | cons c r ih =>
    have hc : (c == '{') = false := by
      simpa using hl c (List.mem_cons_self c r)
    simp [assignTestFrom, hc, ih fun x hx => hl x (List.mem_cons_of_mem c hx)]

theorem assignTestFrom_append {l r : List Char} (hl : ∀ c ∈ l, c ≠ '{') :
    assignTestFrom (l ++ r) = assignTestFrom r := by
  induction l with
  | nil => rfl
  | cons c t ih =>
    have hc : (c == '{') = false := by
      simpa using hl c (List.mem_cons_self c t)
    simp [assignTestFrom, hc, ih fun x hx => hl x (List.mem_cons_of_mem c hx)]

theorem binaryScanAux_zero_eq_nil {l : List Char} (hl : ∀ c ∈ l, c ≠ '{') :
    binaryScanAux 0 l = [] := by
  induction l with
  | nil => rfl
  | cons c r ih =>
    have hc : c ≠ '{' := hl c (List.mem_cons_self c r)
    simp [binaryScanAux, hc, ih fun x hx => hl x (List.mem_cons_of_mem c hx)]

theorem binaryScanAux_zero_append {l r : List Char} (hl : ∀ c ∈ l, c ≠ '{') :
    binaryScanAux 0 (l ++ r) = binaryScanAux 0 r := by
  induction l with
  | nil => rfl
  | cons c t ih =>
    have hc : c ≠ '{' := hl c (List.mem_cons_self c t)
    simp [binaryScanAux, hc, ih fun x hx => hl x (List.mem_cons_of_mem c hx)]

theorem parseTokenCs_token {nm rest : List Char}
    (hnm : ∀ c ∈ nm, isTokenChar c = true) (hne : nm ≠ []) :
    parseTokenCs ('{' :: (nm ++ '}' :: rest)) = some (nm, rest) := by
  have htake : (nm ++ '}' :: rest).takeWhile isTokenChar = nm := by
    rw [List.takeWhile_append_of_pos hnm, List.takeWhile_cons_of_neg (by decide)]
    exact List.append_nil nm
  have hdrop : (nm ++ '}' :: rest).dropWhile isTokenChar = '}' :: rest := by
    rw [List.dropWhile_append_of_pos hnm, List.dropWhile_cons_of_neg (by decide)]
  have hie : nm.isEmpty = false := by
    cases nm with
    | nil => exact absurd rfl hne
    | cons a l => rfl
  simp [parseTokenCs, htake, hdrop, hie]

/-- C9: a condition whose entire trimmed content is exactly one interpolation
token resolving to a non-boolean variable yields the boolean-context
diagnostic, with the type-directed coercion of `boolSuggestion`: a
non-empty-string test for `string`, a nonzero test for `number`, `integer`
or `float`, and a non-null test otherwise. -/
theorem c9_boolean_context (vars : List Variable) (text : String)
    (sp1 nm sp2 : List Char) (v : Variable)
    (hdecomp : text.data = sp1 ++ '{' :: (nm ++ '}' :: sp2))
    (hsp1 : ∀ c ∈ sp1, isSpace c = true) (hsp2 : ∀ c ∈ sp2, isSpace c = true)
    (hnm : ∀ c ∈ nm, isTokenChar c = true) (hne : nm ≠ [])
    (hfind : vars.find? (fun va => va.name = String.mk nm) = some v)
    (hbool : v.type ≠ "boolean") :
    validateExpression vars text =
      some ⟨false, boolMsg (String.mk nm) v.type,
        some (boolSuggestion (String.mk nm) v.type), some (String.mk nm)⟩ := by
  have hsp2' : sp2.dropWhile isSpace = [] := List.dropWhile_eq_nil_iff.mpr hsp2
  have htok : parseTokenCs ('{' :: (nm ++ '}' :: sp2)) = some (nm, sp2) :=
    parseTokenCs_token hnm hne
  have htail : ∀ c ∈ nm ++ '}' :: sp2, c ≠ '{' := by
    intro c hc
    rw [List.mem_append, List.mem_cons] at hc
    rcases hc with hc | hc | hc
    · exact ne_lbrace_of_isTokenChar (hnm c hc)
    · subst hc; decide
    · exact ne_lbrace_of_isSpace (hsp2 c hc)
  have hassign : assignTestFrom text.data = false := by
    rw [hdecomp, assignTestFrom_append fun c hc => ne_lbrace_of_isSpace (hsp1 c hc)]
    have htry : tryAssignAt ('{' :: (nm ++ '}' :: sp2)) = false := by
      simp only [tryAssignAt, htok, hsp2']
    simp [assignTestFrom, htry, assignTestFrom_eq_false htail]
  have hbinary : binaryScan text.data = [] := by
    unfold binaryScan
    rw [hdecomp, binaryScanAux_zero_append fun c hc => ne_lbrace_of_isSpace (hsp1 c hc)]
    have htry : tryBinaryAt ('{' :: (nm ++ '}' :: sp2)) = none := by
      have h0 : tryOps [] binaryOps = none := by decide
      simp only [tryBinaryAt, htok, hsp2', h0]
    simp [binaryScanAux, htry, binaryScanAux_zero_eq_nil htail]
  have hsingle : parseSingleToken text.data = some (String.mk nm) := by
    simp only [parseSingleToken, hdecomp]
    rw [List.dropWhile_append_of_pos hsp1, List.dropWhile_cons_of_neg (by decide)]
    simp [htok, hsp2']
  have hne' : text ≠ "" := by
    intro he
    subst he
    have : ([] : List Char) = sp1 ++ '{' :: (nm ++ '}' :: sp2) := hdecomp
    have hlen := congrArg List.length this
    simp only [List.length_nil, List.length_append, List.length_cons] at hlen
    omega
  unfold validateExpression
  rw [if_neg hne', hassign]
  simp only [Bool.false_eq_true, if_false, hbinary, hsingle, hfind]
  rw [if_pos hbool]
  rfl

/-- C9 (witness): the theorem applied to the spec's worked example
`\x7bflag\x7d` with `flag : string`, whose suggestion is the non-empty-string
test. -/
theorem c9_witness :
    validateExpression [⟨"flag", "string"⟩] "{flag}" =
      some ⟨false, boolMsg "flag" "string", some "!string.IsNullOrEmpty(\x7bflag\x7d)",
        some "flag"⟩ := by
  have h := c9_boolean_context [⟨"flag", "string"⟩] "{flag}" []
    ['f', 'l', 'a', 'g'] [] ⟨"flag", "string"⟩ (by decide) (by decide) (by decide)
    (by decide) (by decide) (by decide) (by decide)
  rw [h]
  decide

theorem specParseAux_length (kinds : List LineKind) :
    ∀ processed : List LineKind,
      (specParseAux processed kinds).length = kinds.countP isMethodKind := by
  induction kinds with
  | nil => intro processed; simp [specParseAux, List.countP_nil]
  | cons k rest ih =>
    intro processed
    cases k <;> simp [specParseAux, List.countP_cons, isMethodKind, ih]

theorem parseLoop_eq_specParseAux (lines : List String) :
    ∀ (processed : List LineKind) (pending : List String),
      pending = docsBackward processed.reverse →
      parseLoop lines pending = specParseAux processed (lines.map classifyLine) := by
  induction lines with
  | nil =>
    intro processed pending _
    simp [parseLoop, specParseAux]
  | cons l rest ih =>
    intro processed pending hpend
    simp only [List.map_cons]
    by_cases h1 : (l.trim.startsWith "///" || l.trim.startsWith "//") = true
    · by_cases h2 : stripComment l.trim = ""
      · have hk : classifyLine l = LineKind.keep := by
          simp [classifyLine, h1, h2]
        have hl : parseLoop (l :: rest) pending = parseLoop rest pending := by
          simp [parseLoop, h1, h2]
        rw [hk, hl, show specParseAux processed (LineKind.keep :: rest.map classifyLine) =
          specParseAux (processed ++ [LineKind.keep]) (rest.map classifyLine) from rfl]
        refine ih _ pending ?_
        rw [List.reverse_append]
        simpa [docsBackward] using hpend
      · have hk : classifyLine l = LineKind.doc (stripComment l.trim) := by
          simp [classifyLine, h1, h2]
        have hl : parseLoop (l :: rest) pending =
            parseLoop rest (pending ++ [stripComment l.trim]) := by
          simp [parseLoop, h1, h2]
        rw [hk, hl, show specParseAux processed
            (LineKind.doc (stripComment l.trim) :: rest.map classifyLine) =
          specParseAux (processed ++ [LineKind.doc (stripComment l.trim)])
            (rest.map classifyLine) from rfl]
        refine ih _ _ ?_
        rw [List.reverse_append]
        simp [docsBackward, hpend]
    · by_cases h3 : (l.trim.startsWith "[" || decide (l.trim = "")) = true
      · have hk : classifyLine l = LineKind.keep := by
          simp only [classifyLine]
          rw [if_neg (by simpa using h1), if_pos (by simpa using h3)]
        have hl : parseLoop (l :: rest) pending = parseLoop rest pending := by
          simp only [parseLoop]
          rw [if_neg (by simpa using h1), if_pos (by simpa using h3)]
        rw [hk, hl, show specParseAux processed (LineKind.keep :: rest.map classifyLine) =
          specParseAux (processed ++ [LineKind.keep]) (rest.map classifyLine) from rfl]
        refine ih _ pending ?_
        rw [List.reverse_append]
        simpa [docsBackward] using hpend
      · cases hm : matchPublicMethod l.trim with
        | some res =>
          obtain ⟨rt, nm, ps⟩ := res
          have hk : classifyLine l = LineKind.method rt nm (parseParams ps) := by
            simp only [classifyLine]
            rw [if_neg (by simpa using h1), if_neg (by simpa using h3), hm]
          have hl : parseLoop (l :: rest) pending =
              ⟨nm, rt, parseParams ps, String.intercalate " " pending⟩ ::
                parseLoop rest [] := by
            simp only [parseLoop]
            rw [if_neg (by simpa using h1), if_neg (by simpa using h3), hm]
          rw [hk, hl, show specParseAux processed
              (LineKind.method rt nm (parseParams ps) :: rest.map classifyLine) =
            ⟨nm, rt, parseParams ps,
              String.intercalate " " (docsBackward processed.reverse)⟩ ::
              specParseAux (processed ++ [LineKind.method rt nm (parseParams ps)])
                (rest.map classifyLine) from rfl]
          rw [hpend]
          congr 1
          refine ih _ [] ?_
          rw [List.reverse_append]
          simp [docsBackward]
        | none =>
          by_cases h4 : isNeutralLine l.trim = true
          · have hk : classifyLine l = LineKind.keep := by
              simp only [classifyLine]
              rw [if_neg (by simpa using h1), if_neg (by simpa using h3), hm,
                if_pos h4]
            have hl : parseLoop (l :: rest) pending = parseLoop rest pending := by
              simp only [parseLoop]
              rw [if_neg (by simpa using h1), if_neg (by simpa using h3), hm,
                if_pos h4]
            rw [hk, hl, show specParseAux processed
                (LineKind.keep :: rest.map classifyLine) =
              specParseAux (processed ++ [LineKind.keep])
                (rest.map classifyLine) from rfl]
            refine ih _ pending ?_
            rw [List.reverse_append]
            simpa [docsBackward] using hpend
          · have hk : classifyLine l = LineKind.clear := by
              simp only [classifyLine]
              rw [if_neg (by simpa using h1), if_neg (by simpa using h3), hm,
                if_neg h4]
            have hl : parseLoop (l :: rest) pending = parseLoop rest [] := by
              simp only [parseLoop]
              rw [if_neg (by simpa using h1), if_neg (by simpa using h3), hm,
                if_neg h4]
            rw [hk, hl, show specParseAux processed
                (LineKind.clear :: rest.map classifyLine) =
              specParseAux (processed ++ [LineKind.clear])
                (rest.map classifyLine) from rfl]
            refine ih _ [] ?_
            rw [List.reverse_append]
            simp [docsBackward]

/-- C6: for every source text, the signature parser returns exactly one
Callable per line matching the public-method declaration pattern, in source
order, whose description joins the immediately preceding doc-comment block
(computed by the backward scan of `docsBackward`: doc lines are collected,
blank/attribute/import/namespace/class/brace lines are skipped without
clearing, and an ordinary code line or an earlier declaration ends the
block), and the number of Callables equals the number of method-pattern
lines. -/
theorem c6_parse_matches_spec (code : String) :
    parseCodeFunctions code = specParse (code.splitOn "\n") ∧
    (parseCodeFunctions code).length =
      ((code.splitOn "\n").map classifyLine).countP isMethodKind := by
  have h : parseCodeFunctions code = specParse (code.splitOn "\n") := by
    unfold parseCodeFunctions specParse
    exact parseLoop_eq_specParseAux (code.splitOn "\n") [] [] rfl
  refine ⟨h, ?_⟩
  rw [h]
  unfold specParse
  exact specParseAux_length _ []

end FlowGen
